import Mathlib

/-!
Verification of the lisper S-expression front end: tokenizer, parser,
evaluator and built-in library, shallowly embedded from `src/lib.rs`.

Numbers in the source are IEEE `f64`.  The embedding is parameterized by an
abstract carrier `α` together with the operations the interpreter uses
(structure `Flt`), so every theorem quantified over `Flt` holds in particular
for the real double-precision instantiation.  Concrete test evaluations use
the exact-rational instantiation `ratFlt`, which agrees with `f64` on the
small integer values they involve.  A Rust panic (out-of-bounds index) is
modeled by `Option.none` in built-ins and by `EvalRes.crash` in the evaluator.
-/

namespace Lisper

/-- Abstract model of the host floating-point type: a carrier with the
arithmetic, comparison and trigonometric operations, constants, rendering and
literal interpretation used by the interpreter. -/
structure Flt (α : Type) where
  add : α → α → α
  sub : α → α → α
  mul : α → α → α
  div : α → α → α
  mod : α → α → α
  lt : α → α → Bool
  gt : α → α → Bool
  eq : α → α → Bool
  le : α → α → Bool
  ge : α → α → Bool
  sin : α → α
  cos : α → α
  tan : α → α
  pi : α
  zero : α
  toStr : α → String
  ofLit : String → α

variable {α : Type}

/-- Embedding of `enum LisperExp`: Bool, Symbol, Number, List. -/
inductive LisperExp (α : Type) where
  | bool (b : Bool)
  | symbol (s : String)
  | number (n : α)
  | list (l : List (LisperExp α))

/-- Whether an expression is a `list`. -/
def LisperExp.isList : LisperExp α → Bool
  | .list _ => true
  | _ => false

/-- Whether an expression is a `number`. -/
def LisperExp.isNumber : LisperExp α → Bool
  | .number _ => true
  | _ => false

/-! ## Tokenizer -/

/-- Unicode `White_Space` code points, as used by Rust `split_whitespace`. -/
def isWs (c : Char) : Bool :=
  c = ' ' || c = '\t' || c = '\n' || c = '\r' || c = '\x0b' || c = '\x0c' ||
  c = '\u0085' || c = '\u00A0' || c = '\u1680' ||
  ('\u2000' ≤ c && c ≤ '\u200A') ||
  c = '\u2028' || c = '\u2029' || c = '\u202F' || c = '\u205F' || c = '\u3000'

/-- Effect of `replace("(", "( ")` on a single character. -/
def replOpen (c : Char) : List Char := if c = '(' then ['(', ' '] else [c]

/-- Effect of `replace(")", " )")` on a single character. -/
def replClose (c : Char) : List Char := if c = ')' then [' ', ')'] else [c]

/-- Model of `split_whitespace`: maximal runs of non-whitespace characters,
`acc` holding the current run reversed. -/
def splitWsAux : List Char → List Char → List (List Char)
  | [], acc => if acc.isEmpty then [] else [acc.reverse]
  | c :: rest, acc =>
    if isWs c then
      if acc.isEmpty then splitWsAux rest [] else acc.reverse :: splitWsAux rest []
    else splitWsAux rest (c :: acc)

/-- Embedding of `tokenize`: insert a space after every `(` and before every
`)` (that is what the two `replace` calls do), then split on whitespace. -/
def tokenize (expr : String) : List String :=
  (splitWsAux ((expr.data.flatMap replOpen).flatMap replClose) []).map (fun t => String.mk t)

/-! ## Atom classification -/

/-- Split a character list at the first character satisfying `p`
(the separator is dropped); `none` if no such character occurs. -/
def splitAtP (p : Char → Bool) : List Char → Option (List Char × List Char)
  | [] => none
  | c :: rest =>
    if p c then some ([], rest)
    else match splitAtP p rest with
      | none => none
      | some (a, b) => some (c :: a, b)

/-- Strip one leading `+` or `-` sign. -/
def stripSign : List Char → List Char
  | '+' :: rest => rest
  | '-' :: rest => rest
  | l => l

/-- Rust `f64` mantissa grammar: `Digits '.'? Digits?` or `'.' Digits`. -/
def mantissaOk (l : List Char) : Bool :=
  match splitAtP (fun c => c = '.') l with
  | none => !l.isEmpty && l.all Char.isDigit
  | some (a, b) => a.all Char.isDigit && b.all Char.isDigit && (!a.isEmpty || !b.isEmpty)

/-- Rust `f64` exponent grammar after the `e`/`E`: `Sign? Digits`. -/
def expPartOk (l : List Char) : Bool :=
  !(stripSign l).isEmpty && (stripSign l).all Char.isDigit

/-- Syntax accepted by Rust `str::parse::<f64>`:
`Sign? ( 'inf' | 'infinity' | 'nan' | Number )` with
`Number ::= Mantissa (('e'|'E') Sign? Digits)?`, words case-insensitive. -/
def acceptsF64 (s : String) : Bool :=
  let l := stripSign s.data
  let low := l.map Char.toLower
  if low = ['i', 'n', 'f'] || low = ['i', 'n', 'f', 'i', 'n', 'i', 't', 'y'] ||
      low = ['n', 'a', 'n'] then true
  else match splitAtP (fun c => c = 'e' || c = 'E') l with
    | none => mantissaOk l
    | some (m, e) => mantissaOk m && expPartOk e

/-- Embedding of `parse_token`: try `bool` (exactly "true"/"false"), then
`f64`, else `Symbol` with the raw text. -/
def parse_token (F : Flt α) (token : String) : LisperExp α :=
  if token = "true" then .bool true
  else if token = "false" then .bool false
  else if acceptsF64 token then .number (F.ofLit token)
  else .symbol token

/-! ## Parser -/

mutual
/-- Embedding of `parse`.  The result carries a proof that the remaining
tokens are strictly fewer, which the source guarantees by consuming at least
the first token; it is needed for termination of the loop in `parseManyAux`. -/
def parseAux (F : Flt α) :
    (ts : List String) →
    Except String ((LisperExp α) × { rem : List String // rem.length < ts.length })
  | [] => .error ("Could not get token")
  | first :: rest =>
    if first = "(" then
      match parseManyAux F rest with
      | .error e => .error e
      | .ok (exps, ⟨rem, h⟩) => .ok (.list exps, ⟨rem, Nat.lt_succ_of_lt h⟩)
    else if first = ")" then
      .error ("Parsing error, found unexpected ).")
    else
      .ok (parse_token F first, ⟨rest, Nat.lt_succ_self rest.length⟩)
termination_by ts => (ts.length, 0)

/-- Embedding of the accumulation loop inside `parse`'s `"("` arm: peek the
next token, stop consuming it when it is `)`, otherwise parse one
sub-expression from the unconsumed tokens and continue on the remainder. -/
def parseManyAux (F : Flt α) :
    (ts : List String) →
    Except String ((List (LisperExp α)) × { rem : List String // rem.length < ts.length })
  | [] => .error ("Error reading token, missing ).")
  | next :: more_next =>
    if next = ")" then
      .ok ([], ⟨more_next, Nat.lt_succ_self more_next.length⟩)
    else
      match parseAux F (next :: more_next) with
      | .error e => .error e
      | .ok (exp, ⟨new_more, h1⟩) =>
        match parseManyAux F new_more with
        | .error e => .error e
        | .ok (exps, ⟨rem, h2⟩) => .ok (exp :: exps, ⟨rem, Nat.lt_trans h2 h1⟩)
termination_by ts => (ts.length, 1)
end

/-- Public `parse`: the subtype bound stripped off. -/
def parse (F : Flt α) (ts : List String) : Except String (LisperExp α × List String) :=
  match parseAux F ts with
  | .error e => .error e
  | .ok (e, rem) => .ok (e, rem.val)

/-- The parser loop with the subtype bound stripped off. -/
def parseMany (F : Flt α) (ts : List String) :
    Except String (List (LisperExp α) × List String) :=
  match parseManyAux F ts with
  | .error e => .error e
  | .ok (es, rem) => .ok (es, rem.val)

/-- Whether an `Except` result is `ok`. -/
def exOk {ε β : Type} : Except ε β → Bool
  | .ok _ => true
  | .error _ => false

/-! ## Display -/

mutual
/-- Embedding of the `Display` implementation for `LisperExp`. -/
def render (F : Flt α) : LisperExp α → String
  | .symbol s => s
  | .number n => F.toStr n
  | .bool b => if b then ("true") else ("false")
  | .list l => "(" ++ renderItems F l ++ ")"
termination_by e => sizeOf e

/-- Comma-join of the renderings of the elements (`items.join(",")`). -/
def renderItems (F : Flt α) : List (LisperExp α) → String
  | [] => ""
  | [x] => render F x
  | x :: y :: rest => render F x ++ "," ++ renderItems F (y :: rest)
termination_by l => sizeOf l
end

/-! ## Built-in function library -/

/-- Loop body shared by the five arithmetic built-ins: `sum` starts at `0.0`
and the element at index 0, when a `Number`, overwrites it; every later
`Number` folds in with `op`; other elements are skipped. -/
def arithLoop (op : α → α → α) : List (LisperExp α) → Nat → α → α
  | [], _, sum => sum
  | .number n :: rest, i, sum =>
    if i = 0 then arithLoop op rest (i + 1) n else arithLoop op rest (i + 1) (op sum n)
  | _ :: rest, i, sum => arithLoop op rest (i + 1) sum

/-- Embedding of `add`. -/
def add (F : Flt α) : LisperExp α → Option (LisperExp α)
  | .list l => some (.number (arithLoop F.add l 0 F.zero))
  | _ => some (.number F.zero)

/-- Embedding of `sub`. -/
def sub (F : Flt α) : LisperExp α → Option (LisperExp α)
  | .list l => some (.number (arithLoop F.sub l 0 F.zero))
  | _ => some (.number F.zero)

/-- Embedding of `mul`. -/
def mul (F : Flt α) : LisperExp α → Option (LisperExp α)
  | .list l => some (.number (arithLoop F.mul l 0 F.zero))
  | _ => some (.number F.zero)

/-- Embedding of `div`. -/
def div (F : Flt α) : LisperExp α → Option (LisperExp α)
  | .list l => some (.number (arithLoop F.div l 0 F.zero))
  | _ => some (.number F.zero)

/-- Embedding of `modulus`. -/
def modulus (F : Flt α) : LisperExp α → Option (LisperExp α)
  | .list l => some (.number (arithLoop F.mod l 0 F.zero))
  | _ => some (.number F.zero)

/-- Loop body shared by the five comparators: `prev` starts at `0.0` and the
element at index 0, when a `Number`, overwrites it; every later `Number`
overwrites `res` with `op prev n` and then `prev` with `n`. -/
def cmpLoop (op : α → α → Bool) : List (LisperExp α) → Nat → α → Bool → Bool
  | [], _, _, res => res
  | .number n :: rest, i, prev, res =>
    if i = 0 then cmpLoop op rest (i + 1) n res
    else cmpLoop op rest (i + 1) n (op prev n)
  | _ :: rest, i, prev, res => cmpLoop op rest (i + 1) prev res

/-- Embedding of `less_than`. -/
def less_than (F : Flt α) : LisperExp α → Option (LisperExp α)
  | .list l => some (.bool (cmpLoop F.lt l 0 F.zero false))
  | _ => some (.bool false)

/-- Embedding of `more_than`. -/
def more_than (F : Flt α) : LisperExp α → Option (LisperExp α)
  | .list l => some (.bool (cmpLoop F.gt l 0 F.zero false))
  | _ => some (.bool false)

/-- Embedding of `equals`. -/
def equals (F : Flt α) : LisperExp α → Option (LisperExp α)
  | .list l => some (.bool (cmpLoop F.eq l 0 F.zero false))
  | _ => some (.bool false)

/-- Embedding of `less_or_equal` (the `println!` in its loop only logs). -/
def less_or_equal (F : Flt α) : LisperExp α → Option (LisperExp α)
  | .list l => some (.bool (cmpLoop F.le l 0 F.zero false))
  | _ => some (.bool false)

/-- Embedding of `more_or_equal`. -/
def more_or_equal (F : Flt α) : LisperExp α → Option (LisperExp α)
  | .list l => some (.bool (cmpLoop F.ge l 0 F.zero false))
  | _ => some (.bool false)

/-- Embedding of `sin`.  Rust indexes `list[0]` unconditionally, which panics
on an empty vector: that is the `none` case. -/
def sin (F : Flt α) : LisperExp α → Option (LisperExp α)
  | .list [] => none
  | .list (x :: _) =>
    match x with
    | .number n => some (.number (F.sin n))
    | _ => some (.number F.zero)
  | _ => some (.number F.zero)

/-- Embedding of `cos`, with the same out-of-bounds `none` case as `sin`. -/
def cos (F : Flt α) : LisperExp α → Option (LisperExp α)
  | .list [] => none
  | .list (x :: _) =>
    match x with
    | .number n => some (.number (F.cos n))
    | _ => some (.number F.zero)
  | _ => some (.number F.zero)

/-- Embedding of `tan`, with the same out-of-bounds `none` case as `sin`. -/
def tan (F : Flt α) : LisperExp α → Option (LisperExp α)
  | .list [] => none
  | .list (x :: _) =>
    match x with
    | .number n => some (.number (F.tan n))
    | _ => some (.number F.zero)
  | _ => some (.number F.zero)

/-- Embedding of the anonymous `pi` closure: ignore the argument, return π. -/
def piConst (F : Flt α) : LisperExp α → Option (LisperExp α) :=
  fun _ => some (.number F.pi)

/-! ## Environment -/

/-- Environment model: the `HashMap` of `LisperEnv` as an association list
(all keys inserted by `create_default_env` are distinct). -/
abbrev Env (α : Type) := List (String × (LisperExp α → Option (LisperExp α)))

/-- Lookup in the association-list environment. -/
def envGet (env : Env α) (k : String) : Option (LisperExp α → Option (LisperExp α)) :=
  match env with
  | [] => none
  | (k2, v) :: rest => if k2 = k then some v else envGet rest k

/-- Embedding of `create_default_env`, in source insertion order. -/
def create_default_env (F : Flt α) : Env α :=
  [("+", add F), ("add", add F),
   ("-", sub F), ("sub", sub F),
   ("*", mul F), ("mul", mul F),
   ("/", div F), ("div", div F),
   ("%", modulus F), ("mod", modulus F),
   ("<", less_than F), (">", more_than F),
   ("=", equals F), ("==", equals F),
   ("<=", less_or_equal F), (">=", more_or_equal F),
   ("sin", sin F), ("cos", cos F), ("tan", tan F),
   ("pi", piConst F)]

/-! ## Evaluator -/

/-- Result of evaluating one expression: a value, a `LisperErr`, or a panic
propagated out of a built-in. -/
inductive EvalRes (α : Type) where
  | crash
  | err (msg : String)
  | ok (e : LisperExp α)

/-- Result of evaluating a list of argument expressions. -/
inductive ArgsRes (α : Type) where
  | crash
  | err (msg : String)
  | ok (es : List (LisperExp α))

/-- Whether an `EvalRes` is a value. -/
def EvalRes.isOk : EvalRes α → Bool
  | .ok _ => true
  | _ => false

mutual
/-- Embedding of `eval`: structural recursion over the four variants, with
argument evaluation, `Display`-keyed lookup and built-in dispatch for lists,
and sentinel `Bool(true)` application for bare symbols. -/
def eval (F : Flt α) (env : Env α) : LisperExp α → EvalRes α
  | .list [] => .err ("Error reading expression")
  | .list (sym :: args) =>
    match evalArgs F env args with
    | .crash => .crash
    | .err m => .err m
    | .ok evaluated_args =>
      match envGet env (render F sym) with
      | none => .err ("Error, function not found.")
      | some f =>
        match f (.list evaluated_args) with
        | none => .crash
        | some r => .ok r
  | .number n => .ok (.number n)
  | .symbol s =>
    match envGet env s with
    | none => .err ("Eval issue, not a real expression")
    | some f =>
      match f (.bool true) with
      | none => .crash
      | some r => .ok r
  | .bool b => .ok (.bool b)
termination_by e => sizeOf e

/-- Embedding of the argument loop in `eval`'s list arm: evaluate each
argument left to right, stopping at the first failure. -/
def evalArgs (F : Flt α) (env : Env α) : List (LisperExp α) → ArgsRes α
  | [] => .ok []
  | a :: rest =>
    match eval F env a with
    | .crash => .crash
    | .err m => .err m
    | .ok v =>
      match evalArgs F env rest with
      | .crash => .crash
      | .err m => .err m
      | .ok vs => .ok (v :: vs)
termination_by l => sizeOf l
end

/-! ## Concrete instantiation over the exact rationals -/

/-- Value of a digit string, used to interpret integer literals exactly
(kernel-computable, unlike `String.toNat?`). -/
def digitsToNat : List Char → Nat → Nat
  | [], acc => acc
  | c :: rest, acc => digitsToNat rest (acc * 10 + (c.toNat - ('0').toNat))

/-- Exact-rational instantiation of `Flt`, used for concrete test inputs.  On
the small integers those inputs involve, rational arithmetic and comparison
coincide with `f64` arithmetic and comparison, so evaluations over it are
faithful to the Rust behavior; `sin`/`cos`/`tan`/`pi`/`toStr` are stand-ins
that no concrete statement relies on for its numeric value. -/
def ratFlt : Flt Rat where
  add := fun a b => a + b
  sub := fun a b => a - b
  mul := fun a b => a * b
  div := fun a b => a / b
  mod := fun a b => a % b
  lt := fun a b => decide (a < b)
  gt := fun a b => decide (b < a)
  eq := fun a b => decide (a = b)
  le := fun a b => decide (a ≤ b)
  ge := fun a b => decide (b ≤ a)
  sin := fun _ => 0
  cos := fun _ => 0
  tan := fun _ => 0
  pi := 0
  zero := 0
  toStr := fun _ => ""
  ofLit := fun s => ((digitsToNat s.data 0 : Nat) : Rat)

/-! ## Specification-side functions -/

/-- The numeric values in a list of expressions, in order. -/
def numsOf : List (LisperExp α) → List α
  | [] => []
  | .number n :: rest => n :: numsOf rest
  | _ :: rest => numsOf rest

/-- Index-0-seeded fold semantics of the arithmetic built-ins: the
accumulator is the value at index 0 when that element is a `Number` and `0.0`
otherwise, and every `Number` after index 0 folds in with `op`. -/
def foldFrom (op : α → α → α) (z : α) : List (LisperExp α) → α
  | [] => z
  | .number n :: rest => (numsOf rest).foldl op n
  | _ :: rest => (numsOf rest).foldl op z

/-- Outcome of the last adjacent comparison of a sequence; `false` when the
sequence has fewer than two elements. -/
def lastPairCmp (op : α → α → Bool) : List α → Bool
  | [] => false
  | [_] => false
  | [a, b] => op a b
  | _ :: b :: c :: rest => lastPairCmp op (b :: c :: rest)

/-- The sequence of values a comparator built-in chains over: the numeric
elements, preceded by `0.0` when the element at index 0 is not a `Number`. -/
def effSeq (F : Flt α) : List (LisperExp α) → List α
  | [] => []
  | .number n :: rest => n :: numsOf rest
  | _ :: rest => F.zero :: numsOf rest

/-- Left-to-right fail-fast sequencing of an evaluation function. -/
def seqEval (f : LisperExp α → EvalRes α) : List (LisperExp α) → ArgsRes α
  | [] => .ok []
  | a :: rest =>
    match f a with
    | .crash => .crash
    | .err m => .err m
    | .ok v =>
      match seqEval f rest with
      | .crash => .crash
      | .err m => .err m
      | .ok vs => .ok (v :: vs)

/-- View an evaluation failure as an argument-list failure (the `ok` case is
irrelevant filler). -/
def failOf : EvalRes α → ArgsRes α
  | .crash => ArgsRes.crash
  | .err m => ArgsRes.err m
  | .ok _ => ArgsRes.ok []

/-- Token-counting matcher: the tokens remaining after the `)` that closes
the currently open parenthesis, where `d` counts additionally nested open
parentheses (the scan starts inside `d + 1` unmatched `(`s); `none` when the
tokens run out first. -/
def afterClose : List String → Nat → Option (List String)
  | [], _ => none
  | t :: rest, d =>
    if t = ")" then
      match d with
      | 0 => some rest
      | k + 1 => afterClose rest k
    else if t = "(" then afterClose rest (d + 1)
    else afterClose rest d

/-- One-pass statement of what the two `replace` calls perform: a single
space after every `(` and before every `)`. -/
def spaceFix : List Char → List Char
  | [] => []
  | c :: rest =>
    if c = '(' then '(' :: ' ' :: spaceFix rest
    else if c = ')' then ' ' :: ')' :: spaceFix rest
    else c :: spaceFix rest

/-- Modelled from the spec claim wording: insert a single space immediately
BEFORE every `(` and AFTER every `)` (the reverse of what the source does). -/
def claimInsert : List Char → List Char
  | [] => []
  | c :: rest =>
    if c = '(' then ' ' :: '(' :: claimInsert rest
    else if c = ')' then ')' :: ' ' :: claimInsert rest
    else c :: claimInsert rest

/-- Modelled from the spec claim wording: `claimInsert` followed by the
whitespace split. -/
def tokenizeClaim (expr : String) : List String :=
  (splitWsAux (claimInsert expr.data) []).map (fun t => String.mk t)

/-- Whether a character is a parenthesis. -/
def isParen (c : Char) : Bool := c = '(' || c = ')'

/-- Adjacency discipline on source text under which every parenthesis
becomes its own token: no `(` directly after an atom character or a `)`,
and no `)` directly before an atom character or a `(`. -/
def okPair (a b : Char) : Bool :=
  (if a = ')' then (b = ')' || isWs b) else true) &&
  (if b = '(' then (a = '(' || isWs a) else true)

/-- Conjunction of `okPair` over all adjacent pairs. -/
def okPairs : List Char → Bool
  | a :: b :: rest => okPair a b && okPairs (b :: rest)
  | _ => true

/-- In the space-fixed text, any pair touching a parenthesis has whitespace
on the other side. -/
def isoPair (a b : Char) : Bool :=
  (!isParen a || isWs b) && (!isParen b || isWs a)

/-- Conjunction of `isoPair` over all adjacent pairs. -/
def strictIso : List Char → Bool
  | a :: b :: rest => isoPair a b && strictIso (b :: rest)
  | _ => true

/-! ## Helper lemmas -/

theorem numsOf_nil_foldFrom (op : α → α → α) (z : α) :
    ∀ l : List (LisperExp α), numsOf l = [] → foldFrom op z l = z := by
  intro l h
  cases l with
  | nil => rfl
  | cons a rest =>
    cases a with
    | number n => simp [numsOf] at h
    | bool b =>
      simp [numsOf] at h
      simp [foldFrom, h]
    | symbol c =>
      simp [numsOf] at h
      simp [foldFrom, h]
    | list m =>
      simp [numsOf] at h
      simp [foldFrom, h]

theorem arithLoop_fold (op : α → α → α) :
    ∀ (l : List (LisperExp α)) (i : Nat) (s : α),
      arithLoop op l (i + 1) s = (numsOf l).foldl op s := by
  intro l
  induction l with
  | nil => intro i s; simp [arithLoop, numsOf]
  | cons a rest ih =>
    intro i s
    cases a with
    | number n => simp [arithLoop, numsOf, ih]
    | bool b => simp [arithLoop, numsOf, ih]
    | symbol c => simp [arithLoop, numsOf, ih]
    | list m => simp [arithLoop, numsOf, ih]

theorem arithLoop_zero (op : α → α → α) (z : α) :
    ∀ l : List (LisperExp α), arithLoop op l 0 z = foldFrom op z l := by
  intro l
  cases l with
  | nil => rfl
  | cons a rest =>
    cases a with
    | number n =>
      show arithLoop op rest (0 + 1) n = foldFrom op z (.number n :: rest)
      rw [arithLoop_fold]
      rfl
    | bool b =>
      show arithLoop op rest (0 + 1) z = foldFrom op z (.bool b :: rest)
      rw [arithLoop_fold]
      rfl
    | symbol c =>
      show arithLoop op rest (0 + 1) z = foldFrom op z (.symbol c :: rest)
      rw [arithLoop_fold]
      rfl
    | list m =>
      show arithLoop op rest (0 + 1) z = foldFrom op z (.list m :: rest)
      rw [arithLoop_fold]
      rfl

theorem cmpLoop_fold (op : α → α → Bool) :
    ∀ (l : List (LisperExp α)) (i : Nat) (prev : α) (res : Bool),
      cmpLoop op l (i + 1) prev res =
        (match numsOf l with
          | [] => res
          | n :: ns => lastPairCmp op (prev :: n :: ns)) := by
  intro l
  induction l with
  | nil => intro i prev res; simp [cmpLoop, numsOf]
  | cons a rest ih =>
    intro i prev res
    cases a with
    | number n =>
      show cmpLoop op rest (i + 1 + 1) n (op prev n) = _
      rw [ih]
      cases hrest : numsOf rest with
      | nil => simp [numsOf, hrest, lastPairCmp]
      | cons m ms => simp [numsOf, hrest, lastPairCmp]
    | bool b =>
      show cmpLoop op rest (i + 1 + 1) prev res = _
      rw [ih]
      simp [numsOf]
    | symbol c =>
      show cmpLoop op rest (i + 1 + 1) prev res = _
      rw [ih]
      simp [numsOf]
    | list m =>
      show cmpLoop op rest (i + 1 + 1) prev res = _
      rw [ih]
      simp [numsOf]

theorem cmpLoop_zero (F : Flt α) (op : α → α → Bool) :
    ∀ l : List (LisperExp α),
      cmpLoop op l 0 F.zero false = lastPairCmp op (effSeq F l) := by
  intro l
  cases l with
  | nil => rfl
  | cons a rest =>
    cases a with
    | number n =>
      show cmpLoop op rest (0 + 1) n false = _
      rw [cmpLoop_fold]
      show _ = lastPairCmp op (n :: numsOf rest)
      cases hrest : numsOf rest with
      | nil => simp [lastPairCmp]
      | cons m ms => simp
    | bool b =>
      show cmpLoop op rest (0 + 1) F.zero false = _
      rw [cmpLoop_fold]
      show _ = lastPairCmp op (F.zero :: numsOf rest)
      cases hrest : numsOf rest with
      | nil => simp [lastPairCmp]
      | cons m ms => simp
    | symbol c =>
      show cmpLoop op rest (0 + 1) F.zero false = _
      rw [cmpLoop_fold]
      show _ = lastPairCmp op (F.zero :: numsOf rest)
      cases hrest : numsOf rest with
      | nil => simp [lastPairCmp]
      | cons m ms => simp
    | list m =>
      show cmpLoop op rest (0 + 1) F.zero false = _
      rw [cmpLoop_fold]
      show _ = lastPairCmp op (F.zero :: numsOf rest)
      cases hrest : numsOf rest with
      | nil => simp [lastPairCmp]
      | cons m ms => simp

/-! ## Claim C2: arithmetic fold semantics (amended: seeding is by index 0) -/

/-- C2 (amended): each arithmetic built-in folds its operation left-to-right
over the numeric elements of the list, with the accumulator seeded from the
element at index 0 when that element is a Number and from 0.0 otherwise
(skipping a non-Number at index 0 does not defer seeding); non-Number
elements never fold; empty or number-free input and non-List arguments give
Number(0.0). -/
theorem arith_fold_semantics (F : Flt α) :
    (∀ l, add F (.list l) = some (.number (foldFrom F.add F.zero l))) ∧
    (∀ l, sub F (.list l) = some (.number (foldFrom F.sub F.zero l))) ∧
    (∀ l, mul F (.list l) = some (.number (foldFrom F.mul F.zero l))) ∧
    (∀ l, div F (.list l) = some (.number (foldFrom F.div F.zero l))) ∧
    (∀ l, modulus F (.list l) = some (.number (foldFrom F.mod F.zero l))) ∧
    (∀ e : LisperExp α, e.isList = false →
      add F e = some (.number F.zero) ∧ sub F e = some (.number F.zero) ∧
      mul F e = some (.number F.zero) ∧ div F e = some (.number F.zero) ∧
      modulus F e = some (.number F.zero)) ∧
    (∀ (op : α → α → α) (l : List (LisperExp α)), numsOf l = [] →
      foldFrom op F.zero l = F.zero) := by
  refine ⟨?_, ?_, ?_, ?_, ?_, ?_, ?_⟩
  · intro l; simp [add, arithLoop_zero]
  · intro l; simp [sub, arithLoop_zero]
  · intro l; simp [mul, arithLoop_zero]
  · intro l; simp [div, arithLoop_zero]
  · intro l; simp [modulus, arithLoop_zero]
  · intro e he
    cases e with
    | list m => simp [LisperExp.isList] at he
    | number n => exact ⟨rfl, rfl, rfl, rfl, rfl⟩
    | bool b => exact ⟨rfl, rfl, rfl, rfl, rfl⟩
    | symbol c => exact ⟨rfl, rfl, rfl, rfl, rfl⟩
  · intro op l h; exact numsOf_nil_foldFrom op F.zero l h

/-- C2 witness: concrete instances of the hypotheses of
`arith_fold_semantics`. -/
theorem arith_fold_semantics_witness :
    (add ratFlt (.bool true) = some (.number ratFlt.zero) ∧
      sub ratFlt (.bool true) = some (.number ratFlt.zero) ∧
      mul ratFlt (.bool true) = some (.number ratFlt.zero) ∧
      div ratFlt (.bool true) = some (.number ratFlt.zero) ∧
      modulus ratFlt (.bool true) = some (.number ratFlt.zero)) ∧
    foldFrom ratFlt.add ratFlt.zero [LisperExp.symbol ("x")] = ratFlt.zero :=
  ⟨(arith_fold_semantics ratFlt).2.2.2.2.2.1 (.bool true) rfl,
   (arith_fold_semantics ratFlt).2.2.2.2.2.2 ratFlt.add [LisperExp.symbol ("x")] rfl⟩

/-- C2 counterexample: on `[Bool(true), Number(5)]` the claimed
first-Number-encountered seeding would give `Number(5)` for every operation,
but `sub` gives `Number(-5)` and `mul` gives `Number(0)`: the accumulator was
seeded from 0.0 at the skipped index 0, and the number at index 1 folded. -/
theorem arith_seed_index_zero_cex :
    sub ratFlt (.list [.bool true, .number 5]) = some (.number (-5)) ∧
    mul ratFlt (.list [.bool true, .number 5]) = some (.number 0) ∧
    (-5 : Rat) ≠ 5 ∧ (0 : Rat) ≠ 5 := by
  have hz : ratFlt.zero = 0 := rfl
  have hs : ∀ a b : Rat, ratFlt.sub a b = a - b := fun a b => rfl
  have hm : ∀ a b : Rat, ratFlt.mul a b = a * b := fun a b => rfl
  refine ⟨?_, ?_, by norm_num, by norm_num⟩
  · simp [sub, arithLoop, hz, hs]
  · simp [mul, arithLoop, hz, hm]

/-! ## Claim C4: comparator semantics (amended: seeding is by index 0) -/

/-- C4 (amended): each comparator chains over the numeric elements with
`prev` seeded at index 0 — when the element at index 0 is not a Number,
`prev` starts at 0.0 and the first later Number is compared against 0.0
instead of seeding — each Number at index 1 or later overwrites the result
with `prev OP current`, so only the last adjacent comparison survives; the
result is Bool(false) exactly when no Number occurs at index 1 or later, and
a non-List argument gives Bool(false).  Evaluating `(< 1 5 2)` under the
default environment yields Bool(false). -/
theorem comparator_last_pair_semantics (F : Flt α) :
    (∀ l, less_than F (.list l) = some (.bool (lastPairCmp F.lt (effSeq F l)))) ∧
    (∀ l, more_than F (.list l) = some (.bool (lastPairCmp F.gt (effSeq F l)))) ∧
    (∀ l, equals F (.list l) = some (.bool (lastPairCmp F.eq (effSeq F l)))) ∧
    (∀ l, less_or_equal F (.list l) = some (.bool (lastPairCmp F.le (effSeq F l)))) ∧
    (∀ l, more_or_equal F (.list l) = some (.bool (lastPairCmp F.ge (effSeq F l)))) ∧
    (∀ e : LisperExp α, e.isList = false →
      less_than F e = some (.bool false) ∧ more_than F e = some (.bool false) ∧
      equals F e = some (.bool false) ∧ less_or_equal F e = some (.bool false) ∧
      more_or_equal F e = some (.bool false)) ∧
    (∀ l : List (LisperExp α), numsOf (l.drop 1) = [] →
      less_than F (.list l) = some (.bool false)) ∧
    eval ratFlt (create_default_env ratFlt)
      (.list [.symbol ("<"), .number 1, .number 5, .number 2]) = .ok (.bool false) := by
  refine ⟨?_, ?_, ?_, ?_, ?_, ?_, ?_, ?_⟩
  · intro l; simp [less_than, cmpLoop_zero]
  · intro l; simp [more_than, cmpLoop_zero]
  · intro l; simp [equals, cmpLoop_zero]
  · intro l; simp [less_or_equal, cmpLoop_zero]
  · intro l; simp [more_or_equal, cmpLoop_zero]
  · intro e he
    cases e with
    | list m => simp [LisperExp.isList] at he
    | number n => exact ⟨rfl, rfl, rfl, rfl, rfl⟩
    | bool b => exact ⟨rfl, rfl, rfl, rfl, rfl⟩
    | symbol c => exact ⟨rfl, rfl, rfl, rfl, rfl⟩
  · intro l h
    rw [(by simp [less_than, cmpLoop_zero] :
      less_than F (.list l) = some (.bool (lastPairCmp F.lt (effSeq F l))))]
    cases l with
    | nil => rfl
    | cons a rest =>
      simp at h
      cases a with
      | number n => simp [effSeq, h, lastPairCmp]
      | bool b => simp [effSeq, h, lastPairCmp]
      | symbol c => simp [effSeq, h, lastPairCmp]
      | list m => simp [effSeq, h, lastPairCmp]
  · have h : envGet (create_default_env ratFlt) ("<") = some (less_than ratFlt) := rfl
    have hr : render ratFlt (.symbol ("<")) = "<" := by simp [render]
    have hz : ratFlt.zero = 0 := rfl
    have hlt : ∀ a b : Rat, ratFlt.lt a b = decide (a < b) := fun a b => rfl
    simp only [eval, evalArgs]
    simp only [hr, h]
    simp [less_than, cmpLoop, hz, hlt]
    norm_num

/-- C4 witness: concrete instances of the hypotheses of
`comparator_last_pair_semantics`. -/
theorem comparator_last_pair_semantics_witness :
    (less_than ratFlt (.symbol ("y")) = some (.bool false) ∧
      more_than ratFlt (.symbol ("y")) = some (.bool false) ∧
      equals ratFlt (.symbol ("y")) = some (.bool false) ∧
      less_or_equal ratFlt (.symbol ("y")) = some (.bool false) ∧
      more_or_equal ratFlt (.symbol ("y")) = some (.bool false)) ∧
    less_than ratFlt (.list [.number 7]) = some (.bool false) :=
  ⟨(comparator_last_pair_semantics ratFlt).2.2.2.2.2.1 (.symbol ("y")) rfl,
   (comparator_last_pair_semantics ratFlt).2.2.2.2.2.2.1 [.number 7] rfl⟩

/-- C4 counterexample: `[Bool(true), Number(5)]` has fewer than two Number
elements, so the claim demands Bool(false), but the loop compares the seeded
0.0 against 5 and returns Bool(true). -/
theorem comparator_single_number_cex :
    less_than ratFlt (.list [.bool true, .number 5]) = some (.bool true) ∧
    LisperExp.bool true ≠ (LisperExp.bool false : LisperExp Rat) := by
  have hz : ratFlt.zero = 0 := rfl
  have hlt : ∀ a b : Rat, ratFlt.lt a b = decide (a < b) := fun a b => rfl
  constructor
  · simp [less_than, cmpLoop, hz, hlt]
  · simp

/-! ## Claim C9: atom classification priority -/

/-- C9: `parse_token` classifies with a fixed priority: a boolean literal
(exactly "true"/"false") gives Bool, else 64-bit-float syntax gives Number,
else Symbol holding the raw text; `parse_token("99") = Number(99.0)`,
`parse_token("true") = Bool(true)`, `parse_token("+") = Symbol("+")`. -/
theorem parse_token_priority (F : Flt α) (tok : String) :
    (tok = "true" → parse_token F tok = .bool true) ∧
    (tok = "false" → parse_token F tok = .bool false) ∧
    (tok ≠ "true" → tok ≠ "false" → acceptsF64 tok = true →
      parse_token F tok = .number (F.ofLit tok)) ∧
    (tok ≠ "true" → tok ≠ "false" → acceptsF64 tok = false →
      parse_token F tok = .symbol tok) ∧
    parse_token ratFlt ("99") = .number 99 ∧
    parse_token ratFlt ("true") = .bool true ∧
    parse_token ratFlt ("+") = .symbol ("+") := by
  refine ⟨?_, ?_, ?_, ?_, ?_, rfl, ?_⟩
  · intro h; simp [parse_token, h]
  · intro h; simp [parse_token, h]
  · intro h1 h2 h3; simp [parse_token, h1, h2, h3]
  · intro h1 h2 h3; simp [parse_token, h1, h2, h3]
  · have ha : acceptsF64 ("99") = true := by decide
    have hn : digitsToNat ("99").data 0 = 99 := by decide
    have ho : ratFlt.ofLit ("99") = ((digitsToNat ("99").data 0 : Nat) : Rat) := rfl
    simp [parse_token, ha, ho, hn]
  · have ha : acceptsF64 ("+") = false := by decide
    simp [parse_token, ha]

/-- C9 witness: concrete instances of the hypotheses of
`parse_token_priority`. -/
theorem parse_token_priority_witness :
    parse_token ratFlt ("58e2") = .number (ratFlt.ofLit ("58e2")) ∧
    parse_token ratFlt ("abc") = .symbol ("abc") :=
  ⟨(parse_token_priority ratFlt ("58e2")).2.2.1 (by decide) (by decide) (by decide),
   (parse_token_priority ratFlt ("abc")).2.2.2.1 (by decide) (by decide) (by decide)⟩

/-! ## Claim C1: trig built-ins (amended: empty argument list panics) -/

/-- C1 (amended): each trig built-in reads index 0 only: on a non-empty List
whose element 0 is `Number(n)` it returns the corresponding standard trig
function of `n`; on a non-empty List whose element 0 is not a Number, and on
any non-List argument, it returns Number(0.0); but on an empty List the
unguarded `list[0]` panics (out of bounds) — and that panic is the only way
any built-in bound by the default environment can fail: none returns an
error. -/
theorem trig_builtin_behavior (F : Flt α) :
    (∀ (n : α) (rest : List (LisperExp α)),
      sin F (.list (.number n :: rest)) = some (.number (F.sin n)) ∧
      cos F (.list (.number n :: rest)) = some (.number (F.cos n)) ∧
      tan F (.list (.number n :: rest)) = some (.number (F.tan n))) ∧
    (∀ (x : LisperExp α) (rest : List (LisperExp α)), x.isNumber = false →
      sin F (.list (x :: rest)) = some (.number F.zero) ∧
      cos F (.list (x :: rest)) = some (.number F.zero) ∧
      tan F (.list (x :: rest)) = some (.number F.zero)) ∧
    (∀ e : LisperExp α, e.isList = false →
      sin F e = some (.number F.zero) ∧
      cos F e = some (.number F.zero) ∧
      tan F e = some (.number F.zero)) ∧
    (sin F (.list ([] : List (LisperExp α))) = none ∧
      cos F (.list ([] : List (LisperExp α))) = none ∧
      tan F (.list ([] : List (LisperExp α))) = none) ∧
    (∀ p ∈ create_default_env F, ∀ arg : LisperExp α, p.2 arg = none →
      arg = .list [] ∧ (p.1 = "sin" ∨ p.1 = "cos" ∨ p.1 = "tan")) := by
  refine ⟨?_, ?_, ?_, ⟨rfl, rfl, rfl⟩, ?_⟩
  · intro n rest; exact ⟨rfl, rfl, rfl⟩
  · intro x rest hx
    cases x with
    | number n => simp [LisperExp.isNumber] at hx
    | bool b => exact ⟨rfl, rfl, rfl⟩
    | symbol c => exact ⟨rfl, rfl, rfl⟩
    | list m => exact ⟨rfl, rfl, rfl⟩
  · intro e he
    cases e with
    | list m => simp [LisperExp.isList] at he
    | number n => exact ⟨rfl, rfl, rfl⟩
    | bool b => exact ⟨rfl, rfl, rfl⟩
    | symbol c => exact ⟨rfl, rfl, rfl⟩
  · intro p hp arg harg
    simp only [create_default_env, List.mem_cons, List.not_mem_nil, or_false] at hp
    have harith : ∀ op : α → α → α, ∀ w : LisperExp α,
        (match w with
          | .list l => some (LisperExp.number (arithLoop op l 0 F.zero))
          | _ => some (.number F.zero)) ≠ none := by
      intro op w
      cases w <;> simp
    have hcmp : ∀ op : α → α → Bool, ∀ w : LisperExp α,
        ((match w with
          | .list l => some (LisperExp.bool (cmpLoop op l 0 F.zero false))
          | _ => some (.bool false)) : Option (LisperExp α)) ≠ none := by
      intro op w
      cases w <;> simp
    have htrig : ∀ g : α → α, ∀ w : LisperExp α,
        ((match w with
          | .list [] => (none : Option (LisperExp α))
          | .list (x :: _) =>
            match x with
            | .number n => some (.number (g n))
            | _ => some (.number F.zero)
          | _ => some (.number F.zero)) : Option (LisperExp α)) = none → w = .list [] := by
      intro g w hw
      cases w with
      | list l =>
        cases l with
        | nil => rfl
        | cons x xs => cases x <;> simp at hw
      | number n => simp at hw
      | bool b => simp at hw
      | symbol c => simp at hw
    rcases hp with h | h | h | h | h | h | h | h | h | h | h | h | h | h | h | h | h | h | h | h <;>
      rw [h] at harg ⊢
    · exact absurd harg (harith F.add arg)
    · exact absurd harg (harith F.add arg)
    · exact absurd harg (harith F.sub arg)
    · exact absurd harg (harith F.sub arg)
    · exact absurd harg (harith F.mul arg)
    · exact absurd harg (harith F.mul arg)
    · exact absurd harg (harith F.div arg)
    · exact absurd harg (harith F.div arg)
    · exact absurd harg (harith F.mod arg)
    · exact absurd harg (harith F.mod arg)
    · exact absurd harg (hcmp F.lt arg)
    · exact absurd harg (hcmp F.gt arg)
    · exact absurd harg (hcmp F.eq arg)
    · exact absurd harg (hcmp F.eq arg)
    · exact absurd harg (hcmp F.le arg)
    · exact absurd harg (hcmp F.ge arg)
    · exact ⟨htrig F.sin arg harg, Or.inl rfl⟩
    · exact ⟨htrig F.cos arg harg, Or.inr (Or.inl rfl)⟩
    · exact ⟨htrig F.tan arg harg, Or.inr (Or.inr rfl)⟩
    · exact absurd harg (by simp [piConst])

/-- C1 witness: concrete instances of the hypotheses of
`trig_builtin_behavior`. -/
theorem trig_builtin_behavior_witness :
    (sin ratFlt (.list [.bool true]) = some (.number ratFlt.zero) ∧
      cos ratFlt (.list [.bool true]) = some (.number ratFlt.zero) ∧
      tan ratFlt (.list [.bool true]) = some (.number ratFlt.zero)) ∧
    (sin ratFlt (.symbol ("w")) = some (.number ratFlt.zero) ∧
      cos ratFlt (.symbol ("w")) = some (.number ratFlt.zero) ∧
      tan ratFlt (.symbol ("w")) = some (.number ratFlt.zero)) :=
  ⟨(trig_builtin_behavior ratFlt).2.1 (.bool true) [] rfl,
   (trig_builtin_behavior ratFlt).2.2.1 (.symbol ("w")) rfl⟩

/-- C1 counterexample: `sin` applied to an empty List — which the evaluator
passes for the source program `(sin)` — hits the unguarded `list[0]` and
panics (modeled by `none` / `EvalRes.crash`) instead of returning the claimed
`Number(0.0)`. -/
theorem trig_empty_list_crashes :
    sin ratFlt (.list ([] : List (LisperExp Rat))) = none ∧
    (none : Option (LisperExp Rat)) ≠ some (.number 0) ∧
    eval ratFlt (create_default_env ratFlt) (.list [.symbol ("sin")]) = .crash := by
  refine ⟨rfl, by simp, ?_⟩
  have h : envGet (create_default_env ratFlt) ("sin") = some (sin ratFlt) := rfl
  have hr : render ratFlt (.symbol ("sin")) = "sin" := by simp [render]
  simp only [eval, evalArgs]
  simp only [hr, h]
  simp [sin]

/-! ## Claim C10: built-in behavior on non-List arguments (amended: not
total on arbitrary arguments — the trig panic — but total on non-Lists) -/

/-- C10 (amended): applied to an argument that is not a List — for example
the sentinel Bool(true) passed by bare-symbol evaluation — every arithmetic
and trig built-in returns Number(0.0), every comparator returns Bool(false),
and pi returns Number(pi) on every argument whatsoever; every built-in bound
by the default environment returns a value on every non-List argument (trig
built-ins are not total on arbitrary arguments: an empty List panics);
consequently evaluating the bare symbols "add", "<" and "sin" under the
default environment succeeds with the default values. -/
theorem builtin_non_list_defaults (F : Flt α) :
    (∀ e : LisperExp α, e.isList = false →
      add F e = some (.number F.zero) ∧ sub F e = some (.number F.zero) ∧
      mul F e = some (.number F.zero) ∧ div F e = some (.number F.zero) ∧
      modulus F e = some (.number F.zero) ∧
      sin F e = some (.number F.zero) ∧ cos F e = some (.number F.zero) ∧
      tan F e = some (.number F.zero) ∧
      less_than F e = some (.bool false) ∧ more_than F e = some (.bool false) ∧
      equals F e = some (.bool false) ∧ less_or_equal F e = some (.bool false) ∧
      more_or_equal F e = some (.bool false)) ∧
    (∀ e : LisperExp α, piConst F e = some (.number F.pi)) ∧
    (∀ p ∈ create_default_env F, ∀ arg : LisperExp α, arg.isList = false →
      (p.2 arg).isSome = true) ∧
    eval ratFlt (create_default_env ratFlt) (.symbol ("add")) = .ok (.number 0) ∧
    eval ratFlt (create_default_env ratFlt) (.symbol ("<")) = .ok (.bool false) ∧
    eval ratFlt (create_default_env ratFlt) (.symbol ("sin")) = .ok (.number 0) := by
  have hnl : ∀ e : LisperExp α, e.isList = false →
      add F e = some (.number F.zero) ∧ sub F e = some (.number F.zero) ∧
      mul F e = some (.number F.zero) ∧ div F e = some (.number F.zero) ∧
      modulus F e = some (.number F.zero) ∧
      sin F e = some (.number F.zero) ∧ cos F e = some (.number F.zero) ∧
      tan F e = some (.number F.zero) ∧
      less_than F e = some (.bool false) ∧ more_than F e = some (.bool false) ∧
      equals F e = some (.bool false) ∧ less_or_equal F e = some (.bool false) ∧
      more_or_equal F e = some (.bool false) := by
    intro e he
    cases e with
    | list m => simp [LisperExp.isList] at he
    | number n => exact ⟨rfl, rfl, rfl, rfl, rfl, rfl, rfl, rfl, rfl, rfl, rfl, rfl, rfl⟩
    | bool b => exact ⟨rfl, rfl, rfl, rfl, rfl, rfl, rfl, rfl, rfl, rfl, rfl, rfl, rfl⟩
    | symbol c => exact ⟨rfl, rfl, rfl, rfl, rfl, rfl, rfl, rfl, rfl, rfl, rfl, rfl, rfl⟩
  refine ⟨hnl, fun e => rfl, ?_, ?_, ?_, ?_⟩
  · intro p hp arg harg
    simp only [create_default_env, List.mem_cons, List.not_mem_nil, or_false] at hp
    have hx := hnl arg harg
    rcases hp with h | h | h | h | h | h | h | h | h | h | h | h | h | h | h | h | h | h | h | h <;>
      rw [h] <;> simp only []
    · rw [hx.1]; rfl
    · rw [hx.1]; rfl
    · rw [hx.2.1]; rfl
    · rw [hx.2.1]; rfl
    · rw [hx.2.2.1]; rfl
    · rw [hx.2.2.1]; rfl
    · rw [hx.2.2.2.1]; rfl
    · rw [hx.2.2.2.1]; rfl
    · rw [hx.2.2.2.2.1]; rfl
    · rw [hx.2.2.2.2.1]; rfl
    · rw [hx.2.2.2.2.2.2.2.2.1]; rfl
    · rw [hx.2.2.2.2.2.2.2.2.2.1]; rfl
    · rw [hx.2.2.2.2.2.2.2.2.2.2.1]; rfl
    · rw [hx.2.2.2.2.2.2.2.2.2.2.1]; rfl
    · rw [hx.2.2.2.2.2.2.2.2.2.2.2.1]; rfl
    · rw [hx.2.2.2.2.2.2.2.2.2.2.2.2]; rfl
    · rw [hx.2.2.2.2.2.1]; rfl
    · rw [hx.2.2.2.2.2.2.1]; rfl
    · rw [hx.2.2.2.2.2.2.2.1]; rfl
    · simp [piConst]
  · have h : envGet (create_default_env ratFlt) ("add") = some (add ratFlt) := rfl
    have hz : ratFlt.zero = 0 := rfl
    simp only [eval, h]
    simp [add, hz]
  · have h : envGet (create_default_env ratFlt) ("<") = some (less_than ratFlt) := rfl
    simp only [eval, h]
    simp [less_than, cmpLoop]
  · have h : envGet (create_default_env ratFlt) ("sin") = some (sin ratFlt) := rfl
    have hz : ratFlt.zero = 0 := rfl
    simp only [eval, h]
    simp [sin, hz]

/-- C10 witness: concrete instances of the hypotheses of
`builtin_non_list_defaults`. -/
theorem builtin_non_list_defaults_witness :
    (piConst ratFlt (.bool true)).isSome = true :=
  (builtin_non_list_defaults ratFlt).2.2.1 ("pi", piConst ratFlt)
    (by simp [create_default_env]) (.bool true) rfl

/-- C10 counterexample: the built-ins are not total on arbitrary Expression
arguments: `tan`, bound by the default environment, panics on an empty
List argument. -/
theorem builtin_totality_cex :
    tan ratFlt (.list ([] : List (LisperExp Rat))) = none ∧
    ("tan", tan ratFlt) ∈ create_default_env ratFlt := by
  exact ⟨rfl, by simp [create_default_env]⟩

/-! ## Claims C5 and C6: the evaluator -/

theorem evalArgs_eq_seqEval (F : Flt α) (env : Env α) :
    ∀ args : List (LisperExp α),
      evalArgs F env args = seqEval (fun a => eval F env a) args := by
  intro args
  induction args with
  | nil => simp [evalArgs, seqEval]
  | cons a rest ih => simp [evalArgs, seqEval, ih]

theorem evalArgs_fail (F : Flt α) (env : Env α) :
    ∀ (pre : List (LisperExp α)) (x : LisperExp α) (post : List (LisperExp α)),
      (∀ a ∈ pre, (eval F env a).isOk = true) → (eval F env x).isOk = false →
      evalArgs F env (pre ++ x :: post) = failOf (eval F env x) := by
  intro pre
  induction pre with
  | nil =>
    intro x post _ hx
    cases h : eval F env x with
    | crash => simp [evalArgs, h, failOf]
    | err m => simp [evalArgs, h, failOf]
    | ok v => rw [h] at hx; simp [EvalRes.isOk] at hx
  | cons p pre' ih =>
    intro x post hall hx
    have hp := hall p (by simp)
    cases h : eval F env p with
    | crash => rw [h] at hp; simp [EvalRes.isOk] at hp
    | err m => rw [h] at hp; simp [EvalRes.isOk] at hp
    | ok v =>
      have hrest := ih x post (fun a ha => hall a (by simp [ha])) hx
      show evalArgs F env (p :: (pre' ++ x :: post)) = _
      rw [(by simp [evalArgs] : evalArgs F env (p :: (pre' ++ x :: post)) =
        match eval F env p with
        | .crash => ArgsRes.crash
        | .err m => ArgsRes.err m
        | .ok v =>
          match evalArgs F env (pre' ++ x :: post) with
          | .crash => ArgsRes.crash
          | .err m => ArgsRes.err m
          | .ok vs => ArgsRes.ok (v :: vs))]
      rw [h, hrest]
      cases hx2 : eval F env x with
      | crash => simp [failOf]
      | err m => simp [failOf]
      | ok v2 => rw [hx2] at hx; simp [EvalRes.isOk] at hx

/-- C5: the evaluator returns Numbers and Bools unchanged; fails with an
EvalError on an empty List; on a non-empty List evaluates the tail left to
right with fail-fast propagation of the first failure (before any lookup or
built-in invocation — the result is then the failing argument evaluation,
whatever the head is), then looks the headup by its rendered text, fails
with an EvalError when absent, and otherwise returns unchanged the built-in
applied to a fresh List of the evaluated tail in order. -/
theorem eval_list_dispatch (F : Flt α) (env : Env α) :
    (∀ n : α, eval F env (.number n) = .ok (.number n)) ∧
    (∀ b : Bool, eval F env (.bool b) = .ok (.bool b)) ∧
    eval F env (.list []) = .err ("Error reading expression") ∧
    (∀ args : List (LisperExp α),
      evalArgs F env args = seqEval (fun a => eval F env a) args) ∧
    (∀ (sym x : LisperExp α) (pre post : List (LisperExp α)),
      (∀ a ∈ pre, (eval F env a).isOk = true) → (eval F env x).isOk = false →
      eval F env (.list (sym :: (pre ++ x :: post))) = eval F env x) ∧
    (∀ (sym : LisperExp α) (args vals : List (LisperExp α)),
      evalArgs F env args = .ok vals →
      eval F env (.list (sym :: args)) =
        match envGet env (render F sym) with
        | none => EvalRes.err ("Error, function not found.")
        | some f =>
          match f (.list vals) with
          | none => EvalRes.crash
          | some r => EvalRes.ok r) := by
  refine ⟨fun n => by simp [eval], fun b => by simp [eval], by simp [eval],
    evalArgs_eq_seqEval F env, ?_, ?_⟩
  · intro sym x pre post hall hx
    have hfail := evalArgs_fail F env pre x post hall hx
    rw [(by simp [eval] : eval F env (.list (sym :: (pre ++ x :: post))) =
      match evalArgs F env (pre ++ x :: post) with
      | .crash => EvalRes.crash
      | .err m => EvalRes.err m
      | .ok evaluated_args =>
        match envGet env (render F sym) with
        | none => EvalRes.err ("Error, function not found.")
        | some f =>
          match f (.list evaluated_args) with
          | none => EvalRes.crash
          | some r => EvalRes.ok r)]
    rw [hfail]
    cases hx2 : eval F env x with
    | crash => simp [failOf]
    | err m => simp [failOf]
    | ok v => rw [hx2] at hx; simp [EvalRes.isOk] at hx
  · intro sym args vals hargs
    rw [(by simp [eval] : eval F env (.list (sym :: args)) =
      match evalArgs F env args with
      | .crash => EvalRes.crash
      | .err m => EvalRes.err m
      | .ok evaluated_args =>
        match envGet env (render F sym) with
        | none => EvalRes.err ("Error, function not found.")
        | some f =>
          match f (.list evaluated_args) with
          | none => EvalRes.crash
          | some r => EvalRes.ok r)]
    rw [hargs]

/-- C5 witness: concrete instances of the hypotheses of
`eval_list_dispatch`: the first failing argument is propagated unchanged
even though the head symbol is unbound, and a successful argument bundle is
dispatched on the rendered head. -/
theorem eval_list_dispatch_witness :
    eval ratFlt (create_default_env ratFlt)
        (.list [.symbol ("nosuch"), .number 1, .list []]) =
      eval ratFlt (create_default_env ratFlt) (.list []) ∧
    eval ratFlt (create_default_env ratFlt)
        (.list [.symbol ("+"), .number 1, .number 2]) = .ok (.number 3) := by
  constructor
  · exact (eval_list_dispatch ratFlt (create_default_env ratFlt)).2.2.2.2.1
      (.symbol ("nosuch")) (.list []) [.number 1] []
      (by intro a ha; simp at ha; rw [ha]; simp [eval, EvalRes.isOk])
      (by simp [eval, EvalRes.isOk])
  · have hd := (eval_list_dispatch ratFlt (create_default_env ratFlt)).2.2.2.2.2
      (.symbol ("+")) [.number 1, .number 2] [.number 1, .number 2]
      (by simp [evalArgs, eval])
    rw [hd]
    have hr : render ratFlt (.symbol ("+")) = "+" := by simp [render]
    have h : envGet (create_default_env ratFlt) ("+") = some (add ratFlt) := rfl
    rw [hr, h]
    have hz : ratFlt.zero = 0 := rfl
    have hads : ∀ a b : Rat, ratFlt.add a b = a + b := fun a b => rfl
    simp [add, arithLoop, hz, hads]
    norm_num

/-- C6: a bare Symbol is looked up directly in the environment; if absent
evaluation fails with an EvalError, and if present the bound built-in is
applied to the single sentinel argument Bool(true). -/
theorem eval_bare_symbol (F : Flt α) (env : Env α) (s : String) :
    (envGet env s = none →
      eval F env (.symbol s) = .err ("Eval issue, not a real expression")) ∧
    (∀ f, envGet env s = some f →
      eval F env (.symbol s) =
        match f (.bool true) with
        | none => EvalRes.crash
        | some r => EvalRes.ok r) := by
  constructor
  · intro h; simp [eval, h]
  · intro f h; simp [eval, h]

/-- C6 witness: concrete instances of the hypotheses of `eval_bare_symbol`:
the bound symbol "pi" is applied to the sentinel Bool(true), and the unbound
symbol "nosuch" is an EvalError. -/
theorem eval_bare_symbol_witness :
    eval ratFlt (create_default_env ratFlt) (.symbol ("pi")) =
      (match piConst ratFlt (.bool true) with
        | none => EvalRes.crash
        | some r => EvalRes.ok r) ∧
    eval ratFlt (create_default_env ratFlt) (.symbol ("nosuch")) =
      .err ("Eval issue, not a real expression") :=
  ⟨(eval_bare_symbol ratFlt (create_default_env ratFlt) ("pi")).2 (piConst ratFlt) rfl,
   (eval_bare_symbol ratFlt (create_default_env ratFlt) ("nosuch")).1 rfl⟩

/-! ## Claims C7 and C8: the parser -/

theorem afterClose_mono :
    ∀ (r : List String) (d : Nat),
      (afterClose r (d + 1)).isSome = true → (afterClose r d).isSome = true := by
  intro r
  induction r with
  | nil => intro d h; simp [afterClose] at h
  | cons t rest ih =>
    intro d h
    by_cases ht : t = ")"
    · subst ht
      rw [show afterClose (")" :: rest) (d + 1) = afterClose rest d from by
        simp [afterClose]] at h
      cases d with
      | zero => simp [afterClose]
      | succ m =>
        rw [show afterClose (")" :: rest) (m + 1) = afterClose rest m from by
          simp [afterClose]]
        exact ih m h
    · by_cases ht2 : t = "("
      · subst ht2
        rw [show afterClose ("(" :: rest) (d + 1) = afterClose rest (d + 2) from by
          simp [afterClose]] at h
        rw [show afterClose ("(" :: rest) d = afterClose rest (d + 1) from by
          simp [afterClose]]
        exact ih (d + 1) h
      · rw [show afterClose (t :: rest) (d + 1) = afterClose rest (d + 1) from by
          simp [afterClose, ht, ht2]] at h
        rw [show afterClose (t :: rest) d = afterClose rest d from by
          simp [afterClose, ht, ht2]]
        exact ih d h
theorem parse_afterClose (F : Flt α) :
    ∀ (N : Nat) (ts : List String), ts.length ≤ N →
      ((∀ (e : LisperExp α) (rem : { r : List String // r.length < ts.length }),
          parseAux F ts = .ok (e, rem) →
          ∀ d, afterClose ts d = afterClose rem.val d) ∧
       (∀ (es : List (LisperExp α)) (rem : { r : List String // r.length < ts.length }),
          parseManyAux F ts = .ok (es, rem) →
          afterClose ts 0 = some rem.val ∧
          ∀ k, afterClose ts (k + 1) = afterClose rem.val k) ∧
       (exOk (parseManyAux F ts) = true ↔ (afterClose ts 0).isSome = true)) := by
  intro N
  induction N with
  | zero =>
    intro ts hts
    have hnil : ts = [] := List.eq_nil_of_length_eq_zero (Nat.le_zero.mp hts)
    subst hnil
    refine ⟨?_, ?_, ?_⟩
    · intro e rem h; simp [parseAux] at h
    · intro es rem h; simp [parseManyAux] at h
    · simp [parseManyAux, afterClose, exOk]
  | succ N ih =>
    intro ts hts
    cases ts with
    | nil =>
      refine ⟨?_, ?_, ?_⟩
      · intro e rem h; simp [parseAux] at h
      · intro es rem h; simp [parseManyAux] at h
      · simp [parseManyAux, afterClose, exOk]
    | cons t rest =>
      have hrestN : rest.length ≤ N := by
        simp only [List.length_cons] at hts; omega
      have IHrest := ih rest hrestN
      by_cases hop : t = "("
      · subst hop
        cases hPM : parseManyAux F rest with
        | error e0 =>
          have hA : parseAux F ("(" :: rest) = .error e0 := by
            simp [parseAux, hPM]
          have hM : parseManyAux F ("(" :: rest) = .error e0 := by
            simp [parseManyAux, hA]
          refine ⟨?_, ?_, ?_⟩
          · intro e rem h; rw [hA] at h; simp at h
          · intro es rem h; rw [hM] at h; simp at h
          · rw [hM]
            constructor
            · intro hc; simp [exOk] at hc
            · intro hc
              rw [show afterClose ("(" :: rest) 0 = afterClose rest 1 from by
                simp [afterClose]] at hc
              have h0 := afterClose_mono rest 0 hc
              have hok := IHrest.2.2.mpr h0
              rw [hPM] at hok
              simp [exOk] at hok
        | ok p0 =>
          obtain ⟨es0, rem0v, rem0h⟩ := p0
          have hlen0 : rem0v.length ≤ N := by omega
          have IHrem0 := ih rem0v hlen0
          have hA : parseAux F ("(" :: rest) =
              .ok (.list es0, ⟨rem0v, Nat.lt_succ_of_lt rem0h⟩) := by
            simp [parseAux, hPM]
          have hP2 := IHrest.2.1 es0 ⟨rem0v, rem0h⟩ hPM
          have c1 : ∀ (e : LisperExp α)
              (rem : { r : List String // r.length < ("(" :: rest).length }),
              parseAux F ("(" :: rest) = .ok (e, rem) →
              ∀ d, afterClose ("(" :: rest) d = afterClose rem.val d := by
            intro e rem h d
            rw [hA] at h
            simp only [Except.ok.injEq, Prod.mk.injEq] at h
            obtain ⟨h1, h2⟩ := h
            rw [show afterClose ("(" :: rest) d = afterClose rest (d + 1) from by
              simp [afterClose]]
            rw [← h2]
            exact hP2.2 d
          refine ⟨c1, ?_, ?_⟩
          · intro es rem h
            rw [show parseManyAux F ("(" :: rest) =
                (match parseManyAux F rem0v with
                  | .error e => .error e
                  | .ok (exps, ⟨rem2, h2⟩) =>
                    .ok (LisperExp.list es0 :: exps,
                      ⟨rem2, Nat.lt_trans h2 (Nat.lt_succ_of_lt rem0h)⟩)) from by
              simp [parseManyAux, hA]] at h
            cases hPM2 : parseManyAux F rem0v with
            | error e2 => rw [hPM2] at h; simp at h
            | ok p2 =>
              obtain ⟨es2, rem2v, rem2h⟩ := p2
              rw [hPM2] at h
              simp only [Except.ok.injEq, Prod.mk.injEq] at h
              obtain ⟨h1, h2⟩ := h
              have hP2b := IHrem0.2.1 es2 ⟨rem2v, rem2h⟩ hPM2
              constructor
              · rw [show afterClose ("(" :: rest) 0 = afterClose rest 1 from by
                  simp [afterClose]]
                rw [hP2.2 0, ← h2]
                exact hP2b.1
              · intro k
                rw [show afterClose ("(" :: rest) (k + 1) = afterClose rest (k + 2) from by
                  simp [afterClose]]
                rw [hP2.2 (k + 1), ← h2]
                exact hP2b.2 k
          · rw [show parseManyAux F ("(" :: rest) =
                (match parseManyAux F rem0v with
                  | .error e => .error e
                  | .ok (exps, ⟨rem2, h2⟩) =>
                    .ok (LisperExp.list es0 :: exps,
                      ⟨rem2, Nat.lt_trans h2 (Nat.lt_succ_of_lt rem0h)⟩)) from by
              simp [parseManyAux, hA]]
            rw [show afterClose ("(" :: rest) 0 = afterClose rest 1 from by
              simp [afterClose]]
            rw [hP2.2 0]
            cases hPM2 : parseManyAux F rem0v with
            | error e2 =>
              have := IHrem0.2.2
              rw [hPM2] at this
              simp only [exOk] at this ⊢
              rw [← this]
            | ok p2 =>
              obtain ⟨es2, rem2v, rem2h⟩ := p2
              have := IHrem0.2.2
              rw [hPM2] at this
              simp only [exOk] at this ⊢
              rw [← this]
      · by_cases hcl : t = ")"
        · subst hcl
          have hA : parseAux F (")" :: rest) =
              .error ("Parsing error, found unexpected ).") := by
            simp [parseAux]
          have hM : parseManyAux F (")" :: rest) =
              .ok ([], ⟨rest, Nat.lt_succ_self rest.length⟩) := by
            simp [parseManyAux]
          refine ⟨?_, ?_, ?_⟩
          · intro e rem h; rw [hA] at h; simp at h
          · intro es rem h
            rw [hM] at h
            simp only [Except.ok.injEq, Prod.mk.injEq] at h
            obtain ⟨h1, h2⟩ := h
            constructor
            · rw [← h2]
              simp [afterClose]
            · intro k
              rw [← h2]
              simp [afterClose]
          · rw [hM]
            simp [exOk, afterClose]
        · have hA : parseAux F (t :: rest) =
              .ok (parse_token F t, ⟨rest, Nat.lt_succ_self rest.length⟩) := by
            simp [parseAux, hop, hcl]
          have hMeq : parseManyAux F (t :: rest) =
              (match parseManyAux F rest with
                | .error e => .error e
                | .ok (exps, ⟨rem2, h2⟩) =>
                  .ok (parse_token F t :: exps,
                    ⟨rem2, Nat.lt_trans h2 (Nat.lt_succ_self rest.length)⟩)) := by
            simp [parseManyAux, hcl, hA]
          have hstep : ∀ d, afterClose (t :: rest) d = afterClose rest d := by
            intro d; simp [afterClose, hop, hcl]
          refine ⟨?_, ?_, ?_⟩
          · intro e rem h
            rw [hA] at h
            simp only [Except.ok.injEq, Prod.mk.injEq] at h
            obtain ⟨h1, h2⟩ := h
            intro d
            rw [hstep d, ← h2]
          · intro es rem h
            rw [hMeq] at h
            cases hPM2 : parseManyAux F rest with
            | error e2 => rw [hPM2] at h; simp at h
            | ok p2 =>
              obtain ⟨es2, rem2v, rem2h⟩ := p2
              rw [hPM2] at h
              simp only [Except.ok.injEq, Prod.mk.injEq] at h
              obtain ⟨h1, h2⟩ := h
              have hP2b := IHrest.2.1 es2 ⟨rem2v, rem2h⟩ hPM2
              constructor
              · rw [hstep 0, ← h2]
                exact hP2b.1
              · intro k
                rw [hstep (k + 1), ← h2]
                exact hP2b.2 k
          · rw [hMeq, hstep 0]
            cases hPM2 : parseManyAux F rest with
            | error e2 =>
              have := IHrest.2.2
              rw [hPM2] at this
              simp only [exOk] at this ⊢
              rw [← this]
            | ok p2 =>
              obtain ⟨es2, rem2v, rem2h⟩ := p2
              have := IHrest.2.2
              rw [hPM2] at this
              simp only [exOk] at this ⊢
              rw [← this]

/-- C7: parse fails exactly when the token sequence is empty, or the first
token is ")", or the first token is "(" and the tokens run out before the
matching ")" (no token-counting match exists); in every other case it
succeeds.  The token stream of "(+ 1" and any stream starting with ")" fail
with a ParseError. -/
theorem parse_error_characterization (F : Flt α) :
    (∀ ts : List String, exOk (parse F ts) = false ↔
      (ts = [] ∨ ts.head? = some (")") ∨
        (ts.head? = some ("(") ∧ (afterClose ts.tail 0).isSome = false))) ∧
    parse ratFlt (tokenize ("(+ 1")) = .error ("Error reading token, missing ).") ∧
    (∀ rest : List String,
      parse ratFlt ((")") :: rest) = .error ("Parsing error, found unexpected ).")) := by
  refine ⟨?_, ?_, ?_⟩
  · intro ts
    cases ts with
    | nil => simp [parse, parseAux, exOk]
    | cons t rest =>
      by_cases hop : t = "("
      · subst hop
        have hiff := (parse_afterClose F rest.length rest le_rfl).2.2
        have hEq : exOk (parse F ("(" :: rest)) = exOk (parseManyAux F rest) := by
          cases hPM : parseManyAux F rest with
          | error e0 => simp [parse, parseAux, hPM, exOk]
          | ok p0 =>
            obtain ⟨es0, rem0v, rem0h⟩ := p0
            simp [parse, parseAux, hPM, exOk]
        rw [hEq]
        simp only [List.head?_cons, List.tail_cons, List.cons_ne_nil, false_or,
          Option.some.injEq]
        rw [show (("(" : String) = ")") = False from by simp]
        simp only [false_or, eq_self_iff_true, true_and]
        rw [← Bool.not_eq_true, ← Bool.not_eq_true, hiff]
      · by_cases hcl : t = ")"
        · subst hcl
          simp [parse, parseAux, exOk]
        · have hA : parseAux F (t :: rest) =
              .ok (parse_token F t, ⟨rest, Nat.lt_succ_self rest.length⟩) := by
            simp [parseAux, hop, hcl]
          simp [parse, hA, exOk, hop, hcl]
  · have h : tokenize ("(+ 1") = ["(", "+", "1"] := by decide
    rw [h]
    simp [parse, parseAux, parseManyAux]
  · intro rest
    simp [parse, parseAux]

/-- C8 (amended): when the first token is "(" and a matching ")" exists,
parse succeeds with a List of the accumulated sub-expressions paired with
exactly the tokens following the matching ")"; parsing the tokens of
"( + 1 1 )" yields the three-element list Symbol "+", Number 1, Number 1
with no remainder, and parsing "(+ 1) (* 2 2)" then feeding the remainder
back in yields a second List of length 3: Symbol "*", Number 2, Number 2
(not length 2 as claimed). -/
theorem parse_list_success (F : Flt α) :
    (∀ r : List String, (afterClose r 0).isSome = true →
      exOk (parse F (("(") :: r)) = true) ∧
    (∀ (r : List String) (es : List (LisperExp α)) (rem : List String),
      parseMany F r = .ok (es, rem) →
      parse F (("(") :: r) = .ok (.list es, rem) ∧ afterClose r 0 = some rem) ∧
    parse ratFlt (tokenize ("( + 1 1 )")) =
      .ok (.list [.symbol ("+"), .number 1, .number 1], []) ∧
    parse ratFlt (tokenize ("(+ 1) (* 2 2)")) =
      .ok (.list [.symbol ("+"), .number 1], ["(", "*", "2", "2", ")"]) ∧
    parse ratFlt (["(", "*", "2", "2", ")"]) =
      .ok (.list [.symbol ("*"), .number 2, .number 2], []) := by
  have hplus : parse_token ratFlt ("+") = .symbol ("+") := by
    have ha : acceptsF64 ("+") = false := by decide
    simp [parse_token, ha]
  have hstar : parse_token ratFlt ("*") = .symbol ("*") := by
    have ha : acceptsF64 ("*") = false := by decide
    simp [parse_token, ha]
  have h1 : parse_token ratFlt ("1") = .number 1 := by
    have ha : acceptsF64 ("1") = true := by decide
    have hn : digitsToNat ("1").data 0 = 1 := by decide
    have ho : ratFlt.ofLit ("1") = ((digitsToNat ("1").data 0 : Nat) : Rat) := rfl
    simp [parse_token, ha, ho, hn]
  have h2 : parse_token ratFlt ("2") = .number 2 := by
    have ha : acceptsF64 ("2") = true := by decide
    have hn : digitsToNat ("2").data 0 = 2 := by decide
    have ho : ratFlt.ofLit ("2") = ((digitsToNat ("2").data 0 : Nat) : Rat) := rfl
    simp [parse_token, ha, ho, hn]
  refine ⟨?_, ?_, ?_, ?_, ?_⟩
  · intro r hr
    have hok := (parse_afterClose F r.length r le_rfl).2.2.mpr hr
    cases hPM : parseManyAux F r with
    | error e0 => rw [hPM] at hok; simp [exOk] at hok
    | ok p0 =>
      obtain ⟨es0, rem0v, rem0h⟩ := p0
      simp [parse, parseAux, hPM, exOk]
  · intro r es rem h
    cases hPM : parseManyAux F r with
    | error e0 => rw [show parseMany F r = .error e0 from by simp [parseMany, hPM]] at h; simp at h
    | ok p0 =>
      obtain ⟨es0, rem0v, rem0h⟩ := p0
      rw [show parseMany F r = .ok (es0, rem0v) from by simp [parseMany, hPM]] at h
      simp only [Except.ok.injEq, Prod.mk.injEq] at h
      obtain ⟨h1, h2⟩ := h
      subst h1; subst h2
      constructor
      · simp [parse, parseAux, hPM]
      · exact ((parse_afterClose F r.length r le_rfl).2.1 es0 ⟨rem0v, rem0h⟩ hPM).1
  · have h : tokenize ("( + 1 1 )") = ["(", "+", "1", "1", ")"] := by decide
    rw [h]
    simp [parse, parseAux, parseManyAux, hplus, h1]
  · have h : tokenize ("(+ 1) (* 2 2)") = ["(", "+", "1", ")", "(", "*", "2", "2", ")"] := by
      decide
    rw [h]
    simp [parse, parseAux, parseManyAux, hplus, h1]
  · simp [parse, parseAux, parseManyAux, hstar, h2]

/-- C8 witness: concrete instances of the hypotheses of
`parse_list_success` at the token list `[")"]`. -/
theorem parse_list_success_witness :
    exOk (parse ratFlt (("(") :: [")"])) = true ∧
    parse ratFlt (("(") :: [")"]) = .ok (.list [], []) ∧
    afterClose ([")"]) 0 = some [] := by
  refine ⟨(parse_list_success ratFlt).1 [")"] (by decide), ?_, ?_⟩
  · exact ((parse_list_success ratFlt).2.1 [")"] [] []
      (by simp [parseMany, parseManyAux])).1
  · exact ((parse_list_success ratFlt).2.1 [")"] [] []
      (by simp [parseMany, parseManyAux])).2

/-- C8 counterexample: for the tokens of "(+ 1) (* 2 2)", feeding the first
parse's remaining tokens ["(", "*", "2", "2", ")"] back into parse yields
the List [Symbol "*", Number 2, Number 2] of length 3, not a List of
length 2 as the claim states. -/
theorem parse_second_form_length_cex :
    parse ratFlt (tokenize ("(+ 1) (* 2 2)")) =
      .ok (.list [.symbol ("+"), .number 1], ["(", "*", "2", "2", ")"]) ∧
    parse ratFlt (["(", "*", "2", "2", ")"]) =
      .ok (.list [.symbol ("*"), .number 2, .number 2], []) ∧
    ([LisperExp.symbol ("*"), LisperExp.number 2, LisperExp.number 2] :
      List (LisperExp Rat)).length = 3 ∧
    (3 : Nat) ≠ 2 := by
  have hplus : parse_token ratFlt ("+") = .symbol ("+") := by
    have ha : acceptsF64 ("+") = false := by decide
    simp [parse_token, ha]
  have hstar : parse_token ratFlt ("*") = .symbol ("*") := by
    have ha : acceptsF64 ("*") = false := by decide
    simp [parse_token, ha]
  have h1 : parse_token ratFlt ("1") = .number 1 := by
    have ha : acceptsF64 ("1") = true := by decide
    have hn : digitsToNat ("1").data 0 = 1 := by decide
    have ho : ratFlt.ofLit ("1") = ((digitsToNat ("1").data 0 : Nat) : Rat) := rfl
    simp [parse_token, ha, ho, hn]
  have h2 : parse_token ratFlt ("2") = .number 2 := by
    have ha : acceptsF64 ("2") = true := by decide
    have hn : digitsToNat ("2").data 0 = 2 := by decide
    have ho : ratFlt.ofLit ("2") = ((digitsToNat ("2").data 0 : Nat) : Rat) := rfl
    simp [parse_token, ha, ho, hn]
  refine ⟨?_, ?_, rfl, by decide⟩
  · have h : tokenize ("(+ 1) (* 2 2)") =
        ["(", "+", "1", ")", "(", "*", "2", "2", ")"] := by decide
    rw [h]
    simp [parse, parseAux, parseManyAux, hplus, h1]
  · simp [parse, parseAux, parseManyAux, hstar, h2]

/-! ## Claim C3: the tokenizer -/

theorem flatMap_eq_spaceFix :
    ∀ l : List Char, (l.flatMap replOpen).flatMap replClose = spaceFix l := by
  intro l
  induction l with
  | nil => simp [spaceFix]
  | cons c rest ih =>
    rw [show (c :: rest).flatMap replOpen = replOpen c ++ rest.flatMap replOpen from by
      simp]
    rw [List.flatMap_append, ih]
    by_cases h1 : c = '('
    · subst h1
      simp [replOpen, replClose, spaceFix]
    · by_cases h2 : c = ')'
      · subst h2
        simp [replOpen, replClose, spaceFix]
      · simp [replOpen, replClose, spaceFix, h1, h2]

theorem splitWsAux_join :
    ∀ (u acc : List Char),
      (splitWsAux u acc).flatten = acc.reverse ++ u.filter (fun c => !isWs c) := by
  intro u
  induction u with
  | nil =>
    intro acc
    cases acc with
    | nil => simp [splitWsAux]
    | cons a as => simp [splitWsAux]
  | cons c u' ih =>
    intro acc
    by_cases hw : isWs c
    · cases acc with
      | nil =>
        rw [show splitWsAux (c :: u') [] = splitWsAux u' [] from by
          simp [splitWsAux, hw]]
        rw [ih []]
        simp [List.filter_cons, hw]
      | cons a as =>
        rw [show splitWsAux (c :: u') (a :: as) =
            (a :: as).reverse :: splitWsAux u' [] from by
          simp [splitWsAux, hw]]
        rw [List.flatten_cons, ih []]
        simp [List.filter_cons, hw]
    · rw [show splitWsAux (c :: u') acc = splitWsAux u' (c :: acc) from by
        simp [splitWsAux, hw]]
      rw [ih (c :: acc)]
      simp [List.filter_cons, hw]

theorem spaceFix_filter :
    ∀ l : List Char,
      (spaceFix l).filter (fun c => !isWs c) = l.filter (fun c => !isWs c) := by
  intro l
  induction l with
  | nil => simp [spaceFix]
  | cons c rest ih =>
    by_cases h1 : c = '('
    · subst h1
      rw [show spaceFix ('(' :: rest) = '(' :: ' ' :: spaceFix rest from by
        simp [spaceFix]]
      have hA : isWs '(' = false := by decide
      have hB : isWs ' ' = true := by decide
      simp [List.filter_cons, ih, hA, hB]
    · by_cases h2 : c = ')'
      · subst h2
        rw [show spaceFix (')' :: rest) = ' ' :: ')' :: spaceFix rest from by
          simp [spaceFix]]
        have hA : isWs ')' = false := by decide
        have hB : isWs ' ' = true := by decide
        simp [List.filter_cons, ih, hA, hB]
      · rw [show spaceFix (c :: rest) = c :: spaceFix rest from by
          simp [spaceFix, h1, h2]]
        simp [List.filter_cons, ih]

theorem paren_not_ws : ∀ c : Char, isParen c = true → isWs c = false := by
  intro c h
  simp only [isParen, Bool.or_eq_true, decide_eq_true_eq] at h
  rcases h with h | h <;> subst h <;> decide

theorem strictIso_tail :
    ∀ (a : Char) (l : List Char), strictIso (a :: l) = true → strictIso l = true := by
  intro a l h
  cases l with
  | nil => rfl
  | cons b rest =>
    rw [show strictIso (a :: b :: rest) = (isoPair a b && strictIso (b :: rest)) from by
      simp [strictIso]] at h
    rw [Bool.and_eq_true] at h
    exact h.2

theorem strictIso_suffix :
    ∀ (l1 l2 : List Char), strictIso (l1 ++ l2) = true → strictIso l2 = true := by
  intro l1
  induction l1 with
  | nil => intro l2 h; exact h
  | cons a l1' ih =>
    intro l2 h
    exact ih l2 (strictIso_tail a (l1' ++ l2) h)

theorem strictIso_prefix :
    ∀ (l1 l2 : List Char), strictIso (l1 ++ l2) = true → strictIso l1 = true := by
  intro l1
  induction l1 with
  | nil => intro l2 _; rfl
  | cons a l1' ih =>
    intro l2 h
    cases l1' with
    | nil => rfl
    | cons a2 l1'' =>
      rw [show strictIso ((a :: a2 :: l1'') ++ l2) =
          (isoPair a a2 && strictIso ((a2 :: l1'') ++ l2)) from by simp [strictIso]] at h
      rw [Bool.and_eq_true] at h
      obtain ⟨h1, h2⟩ := h
      rw [show strictIso (a :: a2 :: l1'') = (isoPair a a2 && strictIso (a2 :: l1'')) from by
        simp [strictIso]]
      rw [Bool.and_eq_true]
      exact ⟨h1, ih l2 h2⟩

theorem paren_singleton :
    ∀ l : List Char, strictIso l = true → (∀ c ∈ l, isWs c = false) →
      ∀ p ∈ l, isParen p = true → l = [p] := by
  intro l
  induction l with
  | nil => intro _ _ p hp; simp at hp
  | cons a l' ih =>
    intro hiso hws p hp hpar
    cases l' with
    | nil => simp at hp; rw [hp]
    | cons b l'' =>
      rw [show strictIso (a :: b :: l'') = (isoPair a b && strictIso (b :: l'')) from by
        simp [strictIso]] at hiso
      rw [Bool.and_eq_true] at hiso
      obtain ⟨hpair, hiso2⟩ := hiso
      simp only [isoPair, Bool.and_eq_true, Bool.or_eq_true, Bool.not_eq_true] at hpair
      rcases List.mem_cons.mp hp with hpa | hpbl
      · subst hpa
        rcases hpair.1 with hx | hx
        · rw [hpar] at hx; simp at hx
        · have := hws b (by simp)
          rw [this] at hx; simp at hx
      · have hb := ih hiso2 (fun c hc => hws c (by simp [hc])) p hpbl hpar
        have hbp : b = p := by
          have := congrArg (fun t => t.head?) hb
          simp at this
          exact this
        subst hbp
        rcases hpair.2 with hx | hx
        · rw [hpar] at hx; simp at hx
        · have := hws a (by simp)
          rw [this] at hx; simp at hx

theorem strictIso_append :
    ∀ (l1 l2 : List Char), strictIso l1 = true → strictIso l2 = true →
      (∀ x y, l1.getLast? = some x → l2.head? = some y → isoPair x y = true) →
      strictIso (l1 ++ l2) = true := by
  intro l1
  induction l1 with
  | nil => intro l2 _ h2 _; exact h2
  | cons a l1' ih =>
    intro l2 h1 h2 hb
    cases l1' with
    | nil =>
      cases l2 with
      | nil => rfl
      | cons y l2' =>
        rw [show ([a] ++ (y :: l2')) = a :: y :: l2' from rfl]
        rw [show strictIso (a :: y :: l2') = (isoPair a y && strictIso (y :: l2')) from by
          simp [strictIso]]
        rw [Bool.and_eq_true]
        exact ⟨hb a y rfl rfl, h2⟩
    | cons a2 l1'' =>
      rw [show strictIso (a :: a2 :: l1'') = (isoPair a a2 && strictIso (a2 :: l1'')) from by
        simp [strictIso]] at h1
      rw [Bool.and_eq_true] at h1
      obtain ⟨hp, h1'⟩ := h1
      rw [show ((a :: a2 :: l1'') ++ l2) = a :: ((a2 :: l1'') ++ l2) from rfl]
      rw [show strictIso (a :: ((a2 :: l1'') ++ l2)) =
          (isoPair a a2 && strictIso ((a2 :: l1'') ++ l2)) from by simp [strictIso]]
      rw [Bool.and_eq_true]
      refine ⟨hp, ih l2 h1' h2 ?_⟩
      intro x y hx hy
      refine hb x y ?_ hy
      rw [List.getLast?_cons_cons]
      exact hx

theorem spaceFix_cons : ∀ (a : Char) (rest : List Char),
    spaceFix (a :: rest) =
      (if a = '(' then ['(', ' '] else if a = ')' then [' ', ')'] else [a]) ++
        spaceFix rest := by
  intro a rest
  by_cases h1 : a = '('
  · subst h1; simp [spaceFix]
  · by_cases h2 : a = ')'
    · subst h2; simp [spaceFix]
    · simp [spaceFix, h1, h2]

theorem spaceFix_head : ∀ (b : Char) (l : List Char),
    (spaceFix (b :: l)).head? =
      some (if b = '(' then '(' else if b = ')' then ' ' else b) := by
  intro b l
  by_cases h1 : b = '('
  · subst h1; simp [spaceFix]
  · by_cases h2 : b = ')'
    · subst h2; simp [spaceFix, h1]
    · simp [spaceFix, h1, h2]

theorem boundary_ok : ∀ a b : Char, okPair a b = true →
    isoPair (if a = '(' then ' ' else if a = ')' then ')' else a)
      (if b = '(' then '(' else if b = ')' then ' ' else b) = true := by
  intro a b hok
  by_cases ha1 : a = '('
  · subst ha1
    rw [if_pos rfl]
    have hA : isParen ' ' = false := by decide
    have hB : isWs ' ' = true := by decide
    simp [isoPair, hA, hB]
  · by_cases ha2 : a = ')'
    · subst ha2
      rw [if_neg (by decide : ¬((')' : Char) = '(')), if_pos rfl]
      by_cases hb1 : b = '('
      · subst hb1
        rw [show okPair ')' '(' = false from by decide] at hok
        simp at hok
      · by_cases hb2 : b = ')'
        · subst hb2
          rw [if_neg (by decide : ¬((')' : Char) = '(')), if_pos rfl]
          decide
        · rw [if_neg hb1, if_neg hb2]
          have hwb : isWs b = true := by
            simp [okPair, hb1, hb2] at hok
            exact hok
          have hpb : isParen b = false := by
            simp [isParen, hb1, hb2]
          have hC : isParen ')' = true := by decide
          simp [isoPair, hwb, hpb, hC]
    · rw [if_neg ha1, if_neg ha2]
      have hpa : isParen a = false := by simp [isParen, ha1, ha2]
      by_cases hb1 : b = '('
      · subst hb1
        rw [if_pos rfl]
        have hwa : isWs a = true := by
          simp [okPair, ha1, ha2] at hok
          exact hok
        simp [isoPair, hpa, hwa]
      · by_cases hb2 : b = ')'
        · subst hb2
          rw [if_neg hb1, if_pos rfl]
          have hA : isParen ' ' = false := by decide
          have hB : isWs ' ' = true := by decide
          simp [isoPair, hpa, hA, hB]
        · rw [if_neg hb1, if_neg hb2]
          have hpb : isParen b = false := by simp [isParen, hb1, hb2]
          simp [isoPair, hpa, hpb]

theorem spaceFix_strictIso :
    ∀ l : List Char, okPairs l = true → strictIso (spaceFix l) = true := by
  intro l
  induction l with
  | nil => intro _; rfl
  | cons a rest ih =>
    intro hok
    have hokr : okPairs rest = true := by
      cases rest with
      | nil => rfl
      | cons b rest' =>
        rw [show okPairs (a :: b :: rest') = (okPair a b && okPairs (b :: rest')) from by
          simp [okPairs]] at hok
        rw [Bool.and_eq_true] at hok
        exact hok.2
    rw [spaceFix_cons]
    apply strictIso_append
    · by_cases h1 : a = '('
      · subst h1; rw [if_pos rfl]; decide
      · by_cases h2 : a = ')'
        · subst h2; rw [if_neg (by decide : ¬((')' : Char) = '(')), if_pos rfl]; decide
        · rw [if_neg h1, if_neg h2]; rfl
    · exact ih hokr
    · intro x y hx hy
      cases rest with
      | nil => simp [spaceFix] at hy
      | cons b rest' =>
        have hokab : okPair a b = true := by
          rw [show okPairs (a :: b :: rest') = (okPair a b && okPairs (b :: rest')) from by
            simp [okPairs]] at hok
          rw [Bool.and_eq_true] at hok
          exact hok.1
        rw [spaceFix_head b rest'] at hy
        have hy' : y = (if b = '(' then '(' else if b = ')' then ' ' else b) := by
          exact (Option.some.injEq _ _ ▸ hy).symm
        have hx' : x = (if a = '(' then ' ' else if a = ')' then ')' else a) := by
          by_cases h1 : a = '('
          · subst h1
            rw [if_pos rfl] at hx ⊢
            simp at hx
            exact hx.symm
          · by_cases h2 : a = ')'
            · subst h2
              rw [if_neg (by decide : ¬((')' : Char) = '(')), if_pos rfl] at hx ⊢
              simp at hx
              exact hx.symm
            · rw [if_neg h1, if_neg h2] at hx ⊢
              simp at hx
              exact hx.symm
        rw [hx', hy']
        exact boundary_ok a b hokab

theorem splitWs_good :
    ∀ (u acc : List Char), strictIso (acc.reverse ++ u) = true →
      (∀ c ∈ acc, isWs c = false) →
      ∀ t ∈ splitWsAux u acc, ∀ p ∈ t, isParen p = true → t = [p] := by
  intro u
  induction u with
  | nil =>
    intro acc hiso hws t ht p hp hpar
    cases acc with
    | nil => simp [splitWsAux] at ht
    | cons a as =>
      rw [show splitWsAux [] (a :: as) = [(a :: as).reverse] from by
        simp [splitWsAux]] at ht
      simp only [List.mem_singleton] at ht
      subst ht
      rw [List.append_nil] at hiso
      exact paren_singleton _ hiso
        (fun c hc => hws c (List.mem_reverse.mp hc)) p hp hpar
  | cons c u' ih =>
    intro acc hiso hws t ht p hp hpar
    by_cases hw : isWs c
    · cases acc with
      | nil =>
        rw [show splitWsAux (c :: u') [] = splitWsAux u' [] from by
          simp [splitWsAux, hw]] at ht
        have hiso' : strictIso (([] : List Char).reverse ++ u') = true := by
          simp only [List.reverse_nil, List.nil_append] at hiso ⊢
          exact strictIso_tail c u' hiso
        exact ih [] hiso' (by intro c2 hc2; simp at hc2) t ht p hp hpar
      | cons a as =>
        rw [show splitWsAux (c :: u') (a :: as) =
            (a :: as).reverse :: splitWsAux u' [] from by
          simp [splitWsAux, hw]] at ht
        rcases List.mem_cons.mp ht with ht1 | ht2
        · subst ht1
          have hpre : strictIso ((a :: as).reverse) = true :=
            strictIso_prefix _ _ hiso
          exact paren_singleton _ hpre
            (fun c2 hc2 => hws c2 (List.mem_reverse.mp hc2)) p hp hpar
        · have hsuf : strictIso (([] : List Char).reverse ++ u') = true := by
            simp only [List.reverse_nil, List.nil_append]
            exact strictIso_tail c u' (strictIso_suffix _ _ hiso)
          exact ih [] hsuf (by intro c2 hc2; simp at hc2) t ht2 p hp hpar
    · rw [show splitWsAux (c :: u') acc = splitWsAux u' (c :: acc) from by
        simp [splitWsAux, hw]] at ht
      have hiso' : strictIso ((c :: acc).reverse ++ u') = true := by
        rw [List.reverse_cons, List.append_assoc]
        exact hiso
      have hws' : ∀ c2 ∈ (c :: acc), isWs c2 = false := by
        intro c2 hc2
        rcases List.mem_cons.mp hc2 with h | h
        · subst h
          simp at hw
          exact hw
        · exact hws c2 h
      exact ih (c :: acc) hiso' hws' t ht p hp hpar

/-- C3 (amended): tokenize equals inserting a single space immediately AFTER
every "(" and BEFORE every ")" (the source's two `replace` calls — the claim
had the sides swapped) and then splitting on runs of whitespace discarding
empty pieces; it is total and never drops a non-whitespace character (the
concatenation of the tokens is the input minus its whitespace, for every
input); for text obeying the adjacency discipline `okPairs` — no "(" directly
preceded by an atom character or ")", no ")" directly followed by an atom
character or "(", the reading of "balanced parens and whitespace-separated
atoms" forced by inputs such as "(()())" — every "(" and ")" is its own
token; and tokenize("(+ 1 1)") = ["(", "+", "1", "1", ")"]. -/
theorem tokenize_spec :
    (∀ s : String,
      tokenize s = (splitWsAux (spaceFix s.data) []).map (fun t => String.mk t)) ∧
    (∀ s : String,
      ((tokenize s).map String.data).flatten = s.data.filter (fun c => !isWs c)) ∧
    (∀ s : String, okPairs s.data = true → ∀ t ∈ tokenize s,
      ('(' ∈ t.data ∨ ')' ∈ t.data) → (t = "(" ∨ t = ")")) ∧
    tokenize ("(+ 1 1)") = ["(", "+", "1", "1", ")"] := by
  have hrepr : ∀ s : String,
      tokenize s = (splitWsAux (spaceFix s.data) []).map (fun t => String.mk t) := by
    intro s
    rw [tokenize, flatMap_eq_spaceFix]
  refine ⟨hrepr, ?_, ?_, by decide⟩
  · intro s
    rw [hrepr s, List.map_map]
    have hcomp : (String.data ∘ fun t => String.mk t) = id := by
      funext t; rfl
    rw [hcomp, List.map_id]
    rw [splitWsAux_join (spaceFix s.data) []]
    simp [spaceFix_filter]
  · intro s hok t ht hpar
    rw [hrepr s] at ht
    obtain ⟨tc, htc, rfl⟩ := List.mem_map.mp ht
    have hiso : strictIso (([] : List Char).reverse ++ spaceFix s.data) = true := by
      simp only [List.reverse_nil, List.nil_append]
      exact spaceFix_strictIso s.data hok
    have hgood := splitWs_good (spaceFix s.data) [] hiso
      (by intro c hc; simp at hc) tc htc
    rcases hpar with hp | hp
    · have hp' : '(' ∈ tc := hp
      have htc1 := hgood '(' hp' (by decide)
      left
      rw [htc1]
    · have hp' : ')' ∈ tc := hp
      have htc1 := hgood ')' hp' (by decide)
      right
      rw [htc1]

/-- C3 witness: concrete instances of the hypotheses of `tokenize_spec`:
"(foo)" obeys the adjacency discipline, "(" is one of its tokens, and the
paren-own-token conclusion holds for it. -/
theorem tokenize_spec_witness :
    okPairs ("(foo)").data = true ∧ (("(" : String) ∈ tokenize ("(foo)")) ∧
    (("(" : String) = "(" ∨ ("(" : String) = ")") :=
  ⟨by decide, by decide,
   tokenize_spec.2.2.1 ("(foo)") (by decide) "(" (by decide) (by decide)⟩

/-- C3 counterexample: the claim's algorithm (space BEFORE "(" and AFTER
")") gives ["(+", "1", "1)"] on "(+ 1 1)", while tokenize gives
["(", "+", "1", "1", ")"] — the insertion sides are swapped; moreover on the
balanced-parens text "(()())" tokenize produces the token ")(", so adjacent
")(" pairs must be excluded from the own-token property. -/
theorem tokenize_space_insertion_cex :
    tokenizeClaim ("(+ 1 1)") = ["(+", "1", "1)"] ∧
    tokenize ("(+ 1 1)") = ["(", "+", "1", "1", ")"] ∧
    tokenizeClaim ("(+ 1 1)") ≠ tokenize ("(+ 1 1)") ∧
    tokenize ("(()())") = ["(", "(", ")(", ")", ")"] :=
  ⟨by decide, by decide, by decide, by decide⟩

end Lisper
